import Mathlib

/-! Luna: plugin registry and interactive shell

A shallow embedding of `internal/plugin/manager.go` and `internal/cli/shell.go`.

Conventions of the embedding

* A Go `map[string]T` is a list of key/value pairs (`GoMap T`).  Indexing reads the entry of a
  key, assignment replaces the entry of a key, `delete` removes it, and `range` visits the
  entries in the order of the list.  Go leaves that order unspecified, so of a statement
  about the result of a `range` loop only what does not depend on the order is meant.
* A Go `error` is `Option String`: `none` is `nil`, `some msg` carries the text of `Error()`.
* A run-time panic is the result `none` of a function returning `Option`.
* `sync.Mutex` is not modelled: every function here is one sequential call.
* A plugin instance is a `VulnPlugin` record: `Meta` is the descriptor the instance reports,
  the same at every call of `Meta()`, and `Run` is its verdict as a function of the target.
  Every call of `Run` made by the code is recorded in a list of `RunCall`s, so that "Run is
  (not) invoked" is a statement about that list.
* Text written with `fmt.Print*` is recorded as a list of strings, one per call.
-/

namespace Luna

/-! ## Go built-ins and standard library -/

/-- Go `error`: `none` is `nil`. -/
abbrev GoError := Option String

/-- Go `map[string]β`. -/
abbrev GoMap (β : Type) := List (String × β)

/-- The comma-ok index expression `v, ok := m[k]`. -/
def mapIndex {β : Type} : GoMap β → String → Option β
  | [], _ => none
  | (k', v) :: rest, k => if k' = k then some v else mapIndex rest k

/-- The built-in `delete(m, k)`. -/
def mapDelete {β : Type} : GoMap β → String → GoMap β
  | [], _ => []
  | (k', v) :: rest, k => if k' = k then mapDelete rest k else (k', v) :: mapDelete rest k

/-- The assignment `m[k] = v`. -/
def mapAssign {β : Type} (m : GoMap β) (k : String) (v : β) : GoMap β :=
  (k, v) :: mapDelete m k

/-- Whether the characters `sub` start the characters `s`. -/
def startsWith : List Char → List Char → Bool
  | _, [] => true
  | [], _ :: _ => false
  | c :: cs, d :: ds => c == d && startsWith cs ds

/-- Whether `sub` occurs in `s` at some position. -/
def containsChars : List Char → List Char → Bool
  | [], sub => startsWith [] sub
  | c :: cs, sub => startsWith (c :: cs) sub || containsChars cs sub

/-- Go `strings.Contains(s, substr)`. -/
def Contains (s substr : String) : Bool :=
  containsChars s.data substr.data

/-- Go `unicode.ToLower(r)`: a rune up to `MaxASCII` is mapped by the code of the function,
which moves `A`..`Z` to `a`..`z` and leaves the rest, and a rune above `MaxASCII` is looked
up in the Unicode case tables, `To(LowerCase, r)`, which is the parameter `lowerRune`. -/
def unicodeToLower (lowerRune : Char → Char) (r : Char) : Char :=
  if r.toNat ≤ 0x7F then
    if 'A'.toNat ≤ r.toNat ∧ r.toNat ≤ 'Z'.toNat then Char.ofNat (r.toNat + ('a'.toNat - 'A'.toNat))
    else r
  else lowerRune r

/-- Go `strings.ToLower(s)`: `strings.Map(unicode.ToLower, s)`. -/
def ToLower (lowerRune : Char → Char) (s : String) : String :=
  ⟨s.data.map (unicodeToLower lowerRune)⟩

/-! ## internal/plugin/manager.go -/

structure PluginMeta where
  Name : String
  Version : String
  Description : String
deriving DecidableEq, Repr

/-- The interface `VulnPlugin`: an instance reports `Meta()` and answers `Run(target)`. -/
structure VulnPlugin where
  Meta : PluginMeta
  Run : String → Bool × GoError

/-- One invocation of a plugin's `Run`. -/
structure RunCall where
  plugin : VulnPlugin
  target : String

structure PluginManager where
  plugins : GoMap VulnPlugin

def NewPluginManager : PluginManager :=
  { plugins := [] }

/-- What `v.Interface()` holds after `i.Eval("Plugin")`: a value that implements
`VulnPlugin`, or any other value. -/
inductive SymbolValue where
  | vuln (p : VulnPlugin)
  | other

/-- The collaborators of `LoadPlugin`: the file system and the yaegi interpreter. -/
structure Host where
  /-- `os.ReadFile(path)`. -/
  ReadFile : String → Except String String
  /-- The error of `i.Eval(string(code))`, `none` when the source evaluates. -/
  EvalCode : String → GoError
  /-- The call `i.Eval("Plugin")` in the interpreter that evaluated `code`. -/
  EvalPlugin : String → Except String SymbolValue

def LoadPlugin (h : Host) (pm : PluginManager) (path : String) : PluginManager × GoError :=
  match h.ReadFile path with
  | .error err => (pm, some err)
  | .ok code =>
    match h.EvalCode code with
    | some err => (pm, some err)
    | none =>
      match h.EvalPlugin code with
      | .error _ => (pm, some "plugin Symbol not found")
      | .ok v =>
        match v with
        | .other => (pm, some "Invalid plugin type")
        | .vuln plugin => ({ plugins := mapAssign pm.plugins plugin.Meta.Name plugin }, none)

def ListPlugins (pm : PluginManager) : List VulnPlugin :=
  pm.plugins.foldl (fun list kv => list ++ [kv.2]) []

def GetPlugin (pm : PluginManager) (name : String) : Option VulnPlugin :=
  mapIndex pm.plugins name

/-- Result of `ExecutePlugin`: the returned pair, the `Run` calls made, and the manager
after the call. -/
structure ExecResult where
  pm : PluginManager
  matched : Bool
  err : GoError
  runs : List RunCall

def ExecutePlugin (pm : PluginManager) (name target : String) : ExecResult :=
  match GetPlugin pm name with
  | none => { pm := pm, matched := false, err := some ("插件 '" ++ name ++ "' 不存在"), runs := [] }
  | some plugin =>
    let r := plugin.Run target
    { pm := pm, matched := r.1, err := r.2, runs := [{ plugin := plugin, target := target }] }

def SearchPlugins (lowerRune : Char → Char) (pm : PluginManager) (keyword : String) :
    List VulnPlugin :=
  let keyword := ToLower lowerRune keyword
  pm.plugins.foldl
    (fun results kv =>
      let meta := kv.2.Meta
      if Contains (ToLower lowerRune meta.Name) keyword ||
          Contains (ToLower lowerRune meta.Description) keyword then
        results ++ [kv.2]
      else results)
    []

def UnloadPlugin (pm : PluginManager) (name : String) : PluginManager × GoError :=
  match mapIndex pm.plugins name with
  | none => (pm, some ("插件 '" ++ name ++ "' 不存在"))
  | some _ => ({ plugins := mapDelete pm.plugins name }, none)

/-! ## internal/cli/shell.go -/

/-- Go `unicode.IsSpace`: the runes with the Unicode White_Space property. -/
def IsSpace (c : Char) : Bool :=
  let n := c.toNat
  (0x09 ≤ n && n ≤ 0x0D) || n == 0x20 || n == 0x85 || n == 0xA0 || n == 0x1680 ||
    (0x2000 ≤ n && n ≤ 0x200A) || n == 0x2028 || n == 0x2029 || n == 0x202F ||
    n == 0x205F || n == 0x3000

/-- Go `strings.TrimSpace`. -/
def TrimSpace (s : String) : String :=
  ⟨((s.data.dropWhile IsSpace).reverse.dropWhile IsSpace).reverse⟩

/-- Scanner of `strings.Fields`: `cur` holds the runes of the field being read, newest first. -/
def fieldsAux : List Char → List Char → List String
  | cur, [] => if cur.isEmpty then [] else [⟨cur.reverse⟩]
  | cur, c :: cs =>
    if IsSpace c then
      if cur.isEmpty then fieldsAux [] cs else ⟨cur.reverse⟩ :: fieldsAux [] cs
    else fieldsAux (c :: cur) cs

/-- Go `strings.Fields`: the maximal runs of non-space runes of `s`. -/
def Fields (s : String) : List String :=
  fieldsAux [] s.data

/-- The format verb `%-Ns`: `s` padded with spaces on the right to `width` runes. -/
def padRight (width : Nat) (s : String) : String :=
  s ++ ⟨List.replicate (width - s.length) ' '⟩

/-- The format verb `%Nd`: the decimal digits of `n` padded with spaces on the left. -/
def padLeftNat (width : Nat) (n : Nat) : String :=
  ⟨List.replicate (width - (toString n).length) ' '⟩ ++ toString n

/-- The handler a `Command` is bound to: the method value stored in its `Action`. -/
inductive Handler where
  | cmdHelp
  | cmdExit
  | cmdLoadPlugin
  | cmdListPlugins
  | cmdSearchPlugins
  | cmdExecPlugin
  | cmdUnloadPlugin
  | cmdSetOption
  | cmdUnsetOption
  | cmdUsePlugin
  | cmdRunPlugin
  | cmdShow
  | cmdHistory
deriving DecidableEq, Repr

structure Command where
  Name : String
  Description : String
  Usage : String
  Action : Handler

structure CommandContext where
  Target : String
  PluginName : String
  Options : GoMap String

structure Shell where
  Commands : GoMap Command
  PluginMgr : PluginManager
  Context : CommandContext
  Prompt : String
  History : List String
  HistoryMaxSize : Int

def NewShell : Shell :=
  { Commands := []
    PluginMgr := NewPluginManager
    Prompt := "luna > "
    History := []
    HistoryMaxSize := 100
    Context := { Target := "", PluginName := "", Options := [] } }

def RegisterCommand (s : Shell) (cmd : Command) : Shell :=
  { s with Commands := mapAssign s.Commands cmd.Name cmd }

/-- The method `AddToHistory`.  The slice expression `s.History[1:]` panics on an empty
slice, which is the result `none`. -/
def AddToHistory (s : Shell) (cmdLine : String) : Option Shell :=
  if (s.History.length : Int) ≥ s.HistoryMaxSize then
    match s.History with
    | [] => none
    | _ :: rest => some { s with History := rest ++ [cmdLine] }
  else
    some { s with History := s.History ++ [cmdLine] }

def contains (slice : List String) (str : String) : Bool :=
  slice.any (fun item => item == str)

def setupCommands (s : Shell) : Shell :=
  let s := RegisterCommand s
    { Name := "help", Description := "显示帮助信息", Usage := "help [command]", Action := .cmdHelp }
  let s := RegisterCommand s
    { Name := "exit", Description := "退出程序", Usage := "exit", Action := .cmdExit }
  let s := RegisterCommand s
    { Name := "load", Description := "加载插件", Usage := "load <plugin_path>",
      Action := .cmdLoadPlugin }
  let s := RegisterCommand s
    { Name := "list", Description := "列出所有已加载的插件", Usage := "list",
      Action := .cmdListPlugins }
  let s := RegisterCommand s
    { Name := "search", Description := "搜索插件", Usage := "search <keyword>",
      Action := .cmdSearchPlugins }
  let s := RegisterCommand s
    { Name := "exec", Description := "执行指定名称的插件", Usage := "exec <plugin_name> [target]",
      Action := .cmdExecPlugin }
  let s := RegisterCommand s
    { Name := "unload", Description := "卸载指定名称的插件", Usage := "unload <plugin_name>",
      Action := .cmdUnloadPlugin }
  let s := RegisterCommand s
    { Name := "set", Description := "设置参数值", Usage := "set <option> <value>",
      Action := .cmdSetOption }
  let s := RegisterCommand s
    { Name := "unset", Description := "清除参数值", Usage := "unset <option>",
      Action := .cmdUnsetOption }
  let s := RegisterCommand s
    { Name := "use", Description := "选择要使用的插件", Usage := "use <plugin_name>",
      Action := .cmdUsePlugin }
  let s := RegisterCommand s
    { Name := "run", Description := "运行当前选择的插件", Usage := "run", Action := .cmdRunPlugin }
  let s := RegisterCommand s
    { Name := "show", Description := "显示信息", Usage := "show [options|plugins]",
      Action := .cmdShow }
  RegisterCommand s
    { Name := "history", Description := "显示命令历史", Usage := "history", Action := .cmdHistory }

/-- What one handler call does: the shell after it, the returned error, the text printed,
the `Run` calls made, and whether `os.Exit` ended the process. -/
structure Outcome where
  shell : Shell
  err : GoError := none
  out : List String := []
  runs : List RunCall := []
  exited : Bool := false

/-- The expression `s.Commands[name].Usage`: the zero value when `name` is no key. -/
def usageOf (s : Shell) (name : String) : String :=
  match mapIndex s.Commands name with
  | some cmd => cmd.Usage
  | none => ""

def cmdHelp (s : Shell) (args : List String) : Outcome :=
  match args with
  | cmdName :: _ =>
    match mapIndex s.Commands cmdName with
    | none => { shell := s, err := some ("未知命令: " ++ cmdName) }
    | some cmd =>
      { shell := s
        out := ["命令: " ++ cmd.Name ++ "\n", "描述: " ++ cmd.Description ++ "\n",
          "用法: " ++ cmd.Usage ++ "\n"] }
  | [] =>
    { shell := s
      out := ["可用命令:\n", "==========\n"] ++
        s.Commands.map (fun kv => padRight 10 kv.1 ++ " - " ++ kv.2.Description ++ "\n") ++
        ["\n使用 'help <command>' 获取特定命令的详细信息\n"] }

def cmdExit (s : Shell) (_args : List String) : Outcome :=
  { shell := s, out := ["再见!\n"], exited := true }

def cmdLoadPlugin (h : Host) (s : Shell) (args : List String) : Outcome :=
  match args with
  | [] => { shell := s, err := some ("用法: " ++ usageOf s "load") }
  | path :: _ =>
    match LoadPlugin h s.PluginMgr path with
    | (pm, some err) => { shell := { s with PluginMgr := pm }, err := some ("加载插件失败: " ++ err) }
    | (pm, none) =>
      { shell := { s with PluginMgr := pm }, out := ["插件 '" ++ path ++ "' 加载成功\n"] }

/-- The line `Printf("%-20s - %s (v%s)\n", ...)` of `cmdListPlugins` and `cmdSearchPlugins`. -/
def pluginLine (p : VulnPlugin) : String :=
  padRight 20 p.Meta.Name ++ " - " ++ p.Meta.Description ++ " (v" ++ p.Meta.Version ++ ")\n"

def cmdListPlugins (s : Shell) (_args : List String) : Outcome :=
  let plugins := ListPlugins s.PluginMgr
  if plugins.length = 0 then
    { shell := s, out := ["没有加载任何插件\n"] }
  else
    { shell := s, out := ["已加载的插件:\n", "=============\n"] ++ plugins.map pluginLine }

def cmdSearchPlugins (lowerRune : Char → Char) (s : Shell) (args : List String) : Outcome :=
  match args with
  | [] => { shell := s, err := some ("用法: " ++ usageOf s "search") }
  | keyword :: _ =>
    let plugins := SearchPlugins lowerRune s.PluginMgr keyword
    if plugins.length = 0 then
      { shell := s, out := ["没有找到包含关键字 '" ++ keyword ++ "' 的插件\n"] }
    else
      { shell := s
        out := ["搜索结果 ('" ++ keyword ++ "'):\n", "====================\n"] ++
          plugins.map pluginLine }

def cmdExecPlugin (s : Shell) (args : List String) : Outcome :=
  match args with
  | [] => { shell := s, err := some ("用法: " ++ usageOf s "exec") }
  | pluginName :: rest =>
    let target :=
      match rest with
      | t :: _ => t
      | [] => if s.Context.Target ≠ "" then s.Context.Target else ""
    let warning :=
      if target = "" then ["警告: 未指定目标，可以使用 'set target <value>' 设置默认目标\n"] else []
    let out := warning ++ ["执行插件 '" ++ pluginName ++ "'...\n"]
    let r := ExecutePlugin s.PluginMgr pluginName target
    let s := { s with PluginMgr := r.pm }
    match r.err with
    | some err => { shell := s, err := some ("执行插件失败: " ++ err), out := out, runs := r.runs }
    | none =>
      if r.matched then { shell := s, out := out ++ ["插件执行成功\n"], runs := r.runs }
      else { shell := s, out := out ++ ["插件执行失败\n"], runs := r.runs }

def cmdUnloadPlugin (s : Shell) (args : List String) : Outcome :=
  match args with
  | [] => { shell := s, err := some ("用法: " ++ usageOf s "unload") }
  | pluginName :: _ =>
    match UnloadPlugin s.PluginMgr pluginName with
    | (pm, some err) => { shell := { s with PluginMgr := pm }, err := some ("卸载插件失败: " ++ err) }
    | (pm, none) =>
      { shell := { s with PluginMgr := pm }, out := ["插件 '" ++ pluginName ++ "' 已卸载\n"] }

def cmdSetOption (s : Shell) (args : List String) : Outcome :=
  match args with
  | option :: value :: _ =>
    let ctx := if option = "target" then { s.Context with Target := value } else s.Context
    { shell := { s with Context := { ctx with Options := mapAssign ctx.Options option value } }
      out := [option ++ " => " ++ value ++ "\n"] }
  | _ => { shell := s, err := some ("用法: " ++ usageOf s "set") }

def cmdUnsetOption (s : Shell) (args : List String) : Outcome :=
  match args with
  | [] => { shell := s, err := some ("用法: " ++ usageOf s "unset") }
  | option :: _ =>
    let ctx := if option = "target" then { s.Context with Target := "" } else s.Context
    { shell := { s with Context := { ctx with Options := mapDelete ctx.Options option } }
      out := [option ++ " 已清除\n"] }

def cmdUsePlugin (s : Shell) (args : List String) : Outcome :=
  match args with
  | [] => { shell := s, err := some ("用法: " ++ usageOf s "use") }
  | pluginName :: _ =>
    let plugins := ListPlugins s.PluginMgr
    let found := plugins.any (fun p => p.Meta.Name == pluginName)
    if !found then
      { shell := s, err := some ("找不到插件: " ++ pluginName) }
    else
      { shell :=
          { s with
            Context := { s.Context with PluginName := pluginName }
            Prompt := "luna (" ++ pluginName ++ ") > " }
        out := ["使用插件: " ++ pluginName ++ "\n"] }

def cmdRunPlugin (s : Shell) (_args : List String) : Outcome :=
  if s.Context.PluginName = "" then
    { shell := s, err := some "请先使用 'use <plugin_name>' 选择一个插件" }
  else if s.Context.Target = "" then
    { shell := s, err := some "请先使用 'set target <target_value>' 设置目标" }
  else
    let plugins := ListPlugins s.PluginMgr
    match plugins.find? (fun p => p.Meta.Name == s.Context.PluginName) with
    | none => { shell := s, err := some ("找不到插件: " ++ s.Context.PluginName) }
    | some targetPlugin =>
      let out :=
        ["正在运行插件 '" ++ s.Context.PluginName ++ "' 检测目标 '" ++ s.Context.Target ++ "'...\n"]
      let runs := [{ plugin := targetPlugin, target := s.Context.Target : RunCall }]
      match targetPlugin.Run s.Context.Target with
      | (_, some err) => { shell := s, err := some ("插件运行失败: " ++ err), out := out, runs := runs }
      | (vuln, none) =>
        if vuln then
          { shell := s, out := out ++ ["[!] 目标 '" ++ s.Context.Target ++ "' 存在漏洞!\n"], runs := runs }
        else
          { shell := s, out := out ++ ["[+] 目标 '" ++ s.Context.Target ++ "' 安全\n"], runs := runs }

def cmdShow (s : Shell) (args : List String) : Outcome :=
  match args with
  | [] => { shell := s, err := some ("用法: " ++ usageOf s "show") }
  | sub :: _ =>
    if sub = "options" then
      { shell := s
        out := ["当前设置:\n", "=========\n", "当前插件: " ++ s.Context.PluginName ++ "\n",
            "目标: " ++ s.Context.Target ++ "\n"] ++
          (s.Context.Options.filter (fun kv => kv.1 ≠ "target")).map
            (fun kv => kv.1 ++ ": " ++ kv.2 ++ "\n") }
    else if sub = "plugins" then cmdListPlugins s []
    else { shell := s, err := some ("未知的show子命令: " ++ sub) }

def cmdHistory (s : Shell) (_args : List String) : Outcome :=
  if s.History.length = 0 then
    { shell := s, out := ["没有命令历史\n"] }
  else
    { shell := s
      out := ["命令历史:\n", "=========\n"] ++
        s.History.enum.map (fun ic => padLeftNat 3 (ic.1 + 1) ++ "  " ++ ic.2 ++ "\n") }

/-- Calling `cmd.Action(args)`. -/
def runAction (h : Host) (lowerRune : Char → Char) (a : Handler) (s : Shell)
    (args : List String) : Outcome :=
  match a with
  | .cmdHelp => cmdHelp s args
  | .cmdExit => cmdExit s args
  | .cmdLoadPlugin => cmdLoadPlugin h s args
  | .cmdListPlugins => cmdListPlugins s args
  | .cmdSearchPlugins => cmdSearchPlugins lowerRune s args
  | .cmdExecPlugin => cmdExecPlugin s args
  | .cmdUnloadPlugin => cmdUnloadPlugin s args
  | .cmdSetOption => cmdSetOption s args
  | .cmdUnsetOption => cmdUnsetOption s args
  | .cmdUsePlugin => cmdUsePlugin s args
  | .cmdRunPlugin => cmdRunPlugin s args
  | .cmdShow => cmdShow s args
  | .cmdHistory => cmdHistory s args

/-- What `select_prompt.Run()` returns in one round of the loop of `Run`: a chosen line, or
one of the errors `promptui.ErrInterrupt`, `promptui.ErrEOF`, or another error. -/
inductive PromptResult where
  | selected (cmdLine : String)
  | interrupt
  | eof
  | failed (err : String)

/-- The list `suggestions` that one round of the loop of `Run` hands to the prompt. -/
def suggestions (s : Shell) : List String :=
  let fromHistory := s.History.foldl (fun acc cmd => acc ++ [cmd]) []
  let withCommands := s.Commands.foldl
    (fun acc kv => if !contains acc kv.1 then acc ++ [kv.1] else acc) fromHistory
  let withPlugins := (ListPlugins s.PluginMgr).foldl
    (fun acc p =>
      let cmdWithPlugin := "use " ++ p.Meta.Name
      if !contains acc cmdWithPlugin then acc ++ [cmdWithPlugin] else acc)
    withCommands
  if withPlugins.length = 0 then withPlugins ++ ["help"] else withPlugins

/-- One round of the loop of `Run`, for the answer `r` of the prompt.  The result is `none`
when the round panics; `exited` tells that `os.Exit` ended the process in this round, and
otherwise the loop goes on with the next round. -/
def loopBody (h : Host) (lowerRune : Char → Char) (s : Shell) (r : PromptResult) :
    Option Outcome :=
  match r with
  | .interrupt =>
    let o := cmdExit s []
    some { o with out := [s.Prompt] ++ o.out }
  | .eof =>
    let o := cmdExit s []
    some { o with out := [s.Prompt] ++ o.out }
  | .failed err => some { shell := s, out := [s.Prompt, "提示错误: " ++ err ++ "\n"] }
  | .selected cmdLine =>
    let cmdLine := TrimSpace cmdLine
    if cmdLine = "" then some { shell := s, out := [s.Prompt] }
    else
      match AddToHistory s cmdLine with
      | none => none
      | some s1 =>
        match Fields cmdLine with
        | [] => some { shell := s1, out := [s.Prompt] }
        | cmdName :: args =>
          match mapIndex s1.Commands cmdName with
          | none =>
            some { shell := s1
                   out := [s.Prompt, "未知命令: " ++ cmdName ++ "\n",
                     "输入 'help' 获取可用命令列表\n"] }
          | some cmd =>
            let o := runAction h lowerRune cmd.Action s1 args
            match o.err with
            | some err =>
              some { o with out := [s.Prompt] ++ o.out ++ ["错误: " ++ err ++ "\n"] }
            | none => some { o with out := [s.Prompt] ++ o.out }

/-- The loop of `Run` fed with the answers of the prompt in `inputs`, from the first on.  The
loop stops at the round in which `os.Exit` is called; when the answers are used up without
that, the result has `exited = false`: the loop is at the prompt, waiting for the next
answer.  The result is `none` when a round panics. -/
def runLoop (h : Host) (lowerRune : Char → Char) : Shell → List PromptResult → Option Outcome
  | s, [] => some { shell := s }
  | s, r :: rest =>
    match loopBody h lowerRune s r with
    | none => none
    | some o =>
      if o.exited then some o
      else
        match runLoop h lowerRune o.shell rest with
        | none => none
        | some o2 => some { o2 with out := o.out ++ o2.out, runs := o.runs ++ o2.runs }

/-- The method `Run`: the command table is set up, the banner is printed, and the loop
starts. -/
def Run (h : Host) (lowerRune : Char → Char) (s : Shell) (inputs : List PromptResult) :
    Option Outcome :=
  let s := setupCommands s
  match runLoop h lowerRune s inputs with
  | none => none
  | some o =>
    some { o with
      out := ["Luna 漏洞扫描框架 - 交互式控制台\n", "输入 'help' 获取可用命令列表\n"] ++ o.out }

/-- Adding the lines of a list to the history one by one, from first to last. -/
def addAllToHistory (s : Shell) : List String → Option Shell
  | [] => some s
  | line :: rest =>
    match AddToHistory s line with
    | none => none
    | some s1 => addAllToHistory s1 rest

/-! ## Notions used to state the properties -/

/-- The keys of the registry. -/
def PluginManager.keys (pm : PluginManager) : List String :=
  pm.plugins.map Prod.fst

/-- Every entry of the registry is stored under the name its instance reports. -/
def KeysAreNames (pm : PluginManager) : Prop :=
  ∀ kv ∈ pm.plugins, kv.1 = kv.2.Meta.Name

/-- Whether the lower-cased name or description of `p` contains the lower-cased keyword. -/
def MatchesKeyword (lowerRune : Char → Char) (keyword : String) (p : VulnPlugin) : Prop :=
  (ToLower lowerRune keyword).data <:+: (ToLower lowerRune p.Meta.Name).data ∨
    (ToLower lowerRune keyword).data <:+: (ToLower lowerRune p.Meta.Description).data

instance (lowerRune : Char → Char) (keyword : String) (p : VulnPlugin) :
    Decidable (MatchesKeyword lowerRune keyword p) := by
  unfold MatchesKeyword; infer_instance

/-- Go `unicode.ToUpper(r)`, built like `unicode.ToLower`: `a`..`z` are moved to `A`..`Z`, and
a rune above `MaxASCII` is looked up in the Unicode case tables, the parameter `upperRune`. -/
def unicodeToUpper (upperRune : Char → Char) (r : Char) : Char :=
  if r.toNat ≤ 0x7F then
    if 'a'.toNat ≤ r.toNat ∧ r.toNat ≤ 'z'.toNat then Char.ofNat (r.toNat - ('a'.toNat - 'A'.toNat))
    else r
  else upperRune r

/-- Two runes that are one letter, in the same or in different case: their lower-case forms
or their upper-case forms are equal. -/
def SameLetter (lowerRune upperRune : Char → Char) (a b : Char) : Prop :=
  unicodeToLower lowerRune a = unicodeToLower lowerRune b ∨
    unicodeToUpper upperRune a = unicodeToUpper upperRune b

/-- Two keywords that differ only in letter case: rune by rune they are the same letter. -/
def DifferOnlyInLetterCase (lowerRune upperRune : Char → Char) (k1 k2 : String) : Prop :=
  List.Forall₂ (SameLetter lowerRune upperRune) k1.data k2.data

/-- Two runes that are equal or are the upper-case and the lower-case form of one of the
letters `A`..`Z`, told without the functions of the search. -/
def AsciiCaseVariants (a b : Char) : Prop :=
  a = b ∨ (a.isUpper = true ∧ b = a.toLower) ∨ (b.isUpper = true ∧ a = b.toLower)

/-- Two keywords that differ only in the case of letters `A`..`Z`, `a`..`z`. -/
def DifferOnlyInAsciiCase (k1 k2 : String) : Prop :=
  List.Forall₂ AsciiCaseVariants k1.data k2.data

/-- The answers of the prompt on which a round of the loop calls `cmdExit`: the two errors
`promptui.ErrInterrupt` and `promptui.ErrEOF`, and a line whose first word is `exit`. -/
def ExitEvent : PromptResult → Prop
  | .interrupt => True
  | .eof => True
  | .failed _ => False
  | .selected cmdLine => (Fields (TrimSpace cmdLine)).head? = some "exit"

instance (r : PromptResult) : Decidable (ExitEvent r) := by
  cases r <;> unfold ExitEvent <;> infer_instance

/-! ## Sample data -/

/-- The instance declared by `examples/sample_plugin.go`, with the verdict of its `Run`
on the targets used below. -/
def samplePlugin : VulnPlugin :=
  { Meta := { Name := "sample_plugin", Version := "1.0.0", Description := "demo" }
    Run := fun target =>
      if target = "" then (false, some "目标不能为空")
      else if target = "fail-host" then (false, none)
      else (true, none) }

/-- A later version of the sample plugin, declaring the same name. -/
def samplePluginV2 : VulnPlugin :=
  { samplePlugin with
    Meta := { Name := "sample_plugin", Version := "2.0.0", Description := "demo" } }

/-- A plugin with another name. -/
def otherPlugin : VulnPlugin :=
  { Meta := { Name := "other", Version := "0.1", Description := "Another Check" }
    Run := fun _ => (false, none) }

/-- A host with three readable plugin sources, one source whose `Plugin` is no plugin, one
source that does not declare `Plugin`, and one source that does not evaluate. -/
def sampleHost : Host :=
  { ReadFile := fun path =>
      if path = "v1.go" then .ok "v1"
      else if path = "v2.go" then .ok "v2"
      else if path = "other.go" then .ok "other"
      else if path = "int.go" then .ok "int"
      else if path = "bad.go" then .ok "bad"
      else if path = "empty.go" then .ok "empty"
      else .error ("open " ++ path ++ ": no such file or directory")
    EvalCode := fun code => if code = "bad" then some "1:1: expected 'package'" else none
    EvalPlugin := fun code =>
      if code = "v1" then .ok (.vuln samplePlugin)
      else if code = "v2" then .ok (.vuln samplePluginV2)
      else if code = "other" then .ok (.vuln otherPlugin)
      else if code = "int" then .ok .other
      else .error "undefined: Plugin" }

/-- The Unicode lower-case table at the runes above ASCII that the examples use: the long s
`ſ` (U+017F) is a lower-case letter and is mapped to itself.  No other rune above ASCII
occurs in the examples. -/
def sampleLowerTable : Char → Char :=
  fun r => r

/-- The Unicode upper-case table at the runes above ASCII that the examples use: the upper
case of the long s `ſ` (U+017F) is `S` (U+0053). -/
def sampleUpperTable : Char → Char :=
  fun r => if r = 'ſ' then 'S' else r

/-- The lines `cmd1`, ..., `cmd101`. -/
def lines101 : List String :=
  (List.range 101).map (fun i => "cmd" ++ toString (i + 1))

/-- A registry holding the sample plugin and the other plugin. -/
def sampleManager : PluginManager :=
  { plugins := [("sample_plugin", samplePlugin), ("other", otherPlugin)] }

/-- The shell after start-up with the sample registry. -/
def sampleShell : Shell :=
  { setupCommands NewShell with PluginMgr := sampleManager }

/-- The sample shell after `use sample_plugin` and `set target example.com`. -/
def selectedShell : Shell :=
  (cmdSetOption (cmdUsePlugin sampleShell ["sample_plugin"]).shell ["target", "example.com"]).shell

/-- Prompt answers for a session without exit event: a blank line, an unknown command, a
command that fails for lack of an argument, a prompt error, and a command that succeeds. -/
def sampleInputs : List PromptResult :=
  [.selected "   ", .selected "bogus x", .selected "load", .failed "^D", .selected "list"]

/-! ## Lemmas on Go maps -/

theorem mapDelete_eq_filter {β : Type} (m : GoMap β) (k : String) :
    mapDelete m k = m.filter (fun kv => decide (kv.1 ≠ k)) := by
  induction m with
  | nil => rfl
  | cons kv rest ih =>
    obtain ⟨k', v⟩ := kv
    by_cases hk : k' = k <;> simp [mapDelete, hk, ih]

theorem mem_mapDelete {β : Type} (m : GoMap β) (k : String) (kv : String × β) :
    kv ∈ mapDelete m k ↔ kv ∈ m ∧ kv.1 ≠ k := by
  simp [mapDelete_eq_filter]

theorem mapIndex_eq_none_iff {β : Type} (m : GoMap β) (k : String) :
    mapIndex m k = none ↔ k ∉ m.map Prod.fst := by
  induction m with
  | nil => simp [mapIndex]
  | cons kv rest ih =>
    obtain ⟨k', v⟩ := kv
    by_cases hk : k' = k
    · simp [mapIndex, hk]
    · have hk2 : ¬ k = k' := fun e => hk e.symm
      simp [mapIndex, hk, hk2, ih]

theorem mapIndex_mem {β : Type} (m : GoMap β) (k : String) (v : β)
    (hv : mapIndex m k = some v) : (k, v) ∈ m := by
  induction m with
  | nil => simp [mapIndex] at hv
  | cons kv rest ih =>
    obtain ⟨k', v'⟩ := kv
    by_cases hk : k' = k
    · simp [mapIndex, hk] at hv
      simp [hk, hv]
    · simp [mapIndex, hk] at hv
      exact List.mem_cons_of_mem _ (ih hv)

theorem mapIndex_mapDelete_self {β : Type} (m : GoMap β) (k : String) :
    mapIndex (mapDelete m k) k = none := by
  induction m with
  | nil => rfl
  | cons kv rest ih =>
    obtain ⟨k', v⟩ := kv
    by_cases hk : k' = k <;> simp [mapDelete, mapIndex, hk, ih]

theorem mapIndex_mapDelete_ne {β : Type} (m : GoMap β) (k other : String) (hne : other ≠ k) :
    mapIndex (mapDelete m k) other = mapIndex m other := by
  induction m with
  | nil => rfl
  | cons kv rest ih =>
    obtain ⟨k', v⟩ := kv
    by_cases hk : k' = k
    · have hk2 : ¬ k' = other := fun e => hne (e.symm.trans hk)
      rw [mapDelete, if_pos hk, mapIndex, if_neg hk2, ih]
    · rw [mapDelete, if_neg hk]
      by_cases ho : k' = other
      · rw [mapIndex, if_pos ho, mapIndex, if_pos ho]
      · rw [mapIndex, if_neg ho, mapIndex, if_neg ho, ih]

theorem mapIndex_mapAssign_self {β : Type} (m : GoMap β) (k : String) (v : β) :
    mapIndex (mapAssign m k v) k = some v := by
  simp [mapAssign, mapIndex]

theorem mapIndex_mapAssign_ne {β : Type} (m : GoMap β) (k other : String) (v : β)
    (hne : other ≠ k) : mapIndex (mapAssign m k v) other = mapIndex m other := by
  have hk : ¬ k = other := fun e => hne e.symm
  simp [mapAssign, mapIndex, hk, mapIndex_mapDelete_ne m k other hne]

theorem ListPlugins_eq_map (pm : PluginManager) :
    ListPlugins pm = pm.plugins.map Prod.snd := by
  unfold ListPlugins
  suffices h : ∀ (l : GoMap VulnPlugin) (acc : List VulnPlugin),
      l.foldl (fun list kv => list ++ [kv.2]) acc = acc ++ l.map Prod.snd by
    simpa using h pm.plugins []
  intro l
  induction l with
  | nil => simp
  | cons kv rest ih => intro acc; simp [ih]

/-! ## Lemmas on substring search -/

theorem startsWith_iff (s sub : List Char) : startsWith s sub = true ↔ sub <+: s := by
  induction sub generalizing s with
  | nil => simp [startsWith]
  | cons d ds ih =>
    cases s with
    | nil => simp [startsWith]
    | cons c cs =>
      simp only [startsWith, Bool.and_eq_true, beq_iff_eq, ih, List.cons_prefix_cons]
      constructor
      · rintro ⟨rfl, h⟩; exact ⟨rfl, h⟩
      · rintro ⟨rfl, h⟩; exact ⟨rfl, h⟩

theorem containsChars_iff (s sub : List Char) : containsChars s sub = true ↔ sub <:+: s := by
  induction s with
  | nil =>
    simp only [containsChars, startsWith_iff]
    constructor
    · intro h; exact h.isInfix
    · intro h
      have := List.eq_nil_of_infix_nil h
      subst this
      exact List.prefix_refl _
  | cons c cs ih =>
    simp only [containsChars, Bool.or_eq_true, startsWith_iff, ih]
    rw [List.infix_cons_iff]

/-! ## The registry: Unload, Load, Search, Execute -/

/-- C1. `UnloadPlugin(name)` returns an error exactly when `name` is not a key of the
registry, and the error is the not-found error.  When it returns an error the registry is
unchanged.  When it succeeds, `GetPlugin(name)` reports absent afterwards and `GetPlugin` of
every other name answers as before. -/
theorem UnloadPlugin_contract (pm : PluginManager) (name : String) :
    ((UnloadPlugin pm name).2 ≠ none ↔ name ∉ pm.keys) ∧
    ((UnloadPlugin pm name).2 ≠ none →
      (UnloadPlugin pm name).2 = some ("插件 '" ++ name ++ "' 不存在") ∧
      (UnloadPlugin pm name).1 = pm) ∧
    ((UnloadPlugin pm name).2 = none →
      GetPlugin (UnloadPlugin pm name).1 name = none ∧
      ∀ other, other ≠ name →
        GetPlugin (UnloadPlugin pm name).1 other = GetPlugin pm other) := by
  unfold UnloadPlugin PluginManager.keys
  cases hidx : mapIndex pm.plugins name with
  | none =>
    have hkey := (mapIndex_eq_none_iff pm.plugins name).1 hidx
    simp [hkey]
  | some p =>
    have hkey : ¬ name ∉ pm.plugins.map Prod.fst := by
      intro hno
      have := (mapIndex_eq_none_iff pm.plugins name).2 hno
      simp [hidx] at this
    refine ⟨?_, ?_, ?_⟩
    · simp only [ne_eq, not_true_eq_false, false_iff]; exact hkey
    · intro hne; exact absurd rfl hne
    · intro _
      exact ⟨mapIndex_mapDelete_self _ _, fun other hne => mapIndex_mapDelete_ne _ _ _ hne⟩

/-- Witness of C1: unloading the loaded name `other` succeeds and removes it, and
unloading the absent name `zzz` fails and changes nothing. -/
theorem UnloadPlugin_contract_witness :
    (UnloadPlugin sampleManager "other").2 = none ∧
    GetPlugin (UnloadPlugin sampleManager "other").1 "other" = none ∧
    GetPlugin (UnloadPlugin sampleManager "other").1 "sample_plugin" =
      GetPlugin sampleManager "sample_plugin" ∧
    (UnloadPlugin sampleManager "zzz").2 = some ("插件 '" ++ "zzz" ++ "' 不存在") ∧
    (UnloadPlugin sampleManager "zzz").1 = sampleManager := by
  have hok : (UnloadPlugin sampleManager "other").2 = none := by decide
  have hbad : (UnloadPlugin sampleManager "zzz").2 ≠ none := by decide
  have h1 := (UnloadPlugin_contract sampleManager "other").2.2 hok
  have h2 := (UnloadPlugin_contract sampleManager "zzz").2.1 hbad
  exact ⟨hok, h1.1, h1.2 "sample_plugin" (by decide), h2.1, h2.2⟩

/-- C2. Two sources that both load successfully and declare the same name, the host of the
second load being free to differ from the host of the first: after loading the first and
then the second into a registry whose entries are stored under their names, both loads
return no error, the registry has exactly one key and `ListPlugins` exactly one
instance of that name, `GetPlugin` of the name returns the second instance (so the version
found is the second one), and `GetPlugin` of every other name answers as before. -/
theorem LoadPlugin_same_name_last_wins (h1 h2 : Host) (pm : PluginManager)
    (path1 path2 code1 code2 : String) (p1 p2 : VulnPlugin)
    (hinv : KeysAreNames pm)
    (hread1 : h1.ReadFile path1 = .ok code1) (heval1 : h1.EvalCode code1 = none)
    (hsym1 : h1.EvalPlugin code1 = .ok (.vuln p1))
    (hread2 : h2.ReadFile path2 = .ok code2) (heval2 : h2.EvalCode code2 = none)
    (hsym2 : h2.EvalPlugin code2 = .ok (.vuln p2))
    (hname : p1.Meta.Name = p2.Meta.Name) :
    (LoadPlugin h1 pm path1).2 = none ∧
    (LoadPlugin h2 (LoadPlugin h1 pm path1).1 path2).2 = none ∧
    GetPlugin (LoadPlugin h2 (LoadPlugin h1 pm path1).1 path2).1 p1.Meta.Name = some p2 ∧
    (GetPlugin (LoadPlugin h2 (LoadPlugin h1 pm path1).1 path2).1 p1.Meta.Name).map
      (fun p => p.Meta.Version) = some p2.Meta.Version ∧
    (LoadPlugin h2 (LoadPlugin h1 pm path1).1 path2).1.keys.count p1.Meta.Name = 1 ∧
    (ListPlugins (LoadPlugin h2 (LoadPlugin h1 pm path1).1 path2).1).filter
      (fun p => p.Meta.Name == p1.Meta.Name) = [p2] ∧
    ∀ other, other ≠ p1.Meta.Name →
      GetPlugin (LoadPlugin h2 (LoadPlugin h1 pm path1).1 path2).1 other = GetPlugin pm other := by
  have hl1 : LoadPlugin h1 pm path1 = ({ plugins := mapAssign pm.plugins p1.Meta.Name p1 }, none) := by
    simp [LoadPlugin, hread1, heval1, hsym1]
  have hl2 : ∀ pm', LoadPlugin h2 pm' path2 =
      ({ plugins := mapAssign pm'.plugins p2.Meta.Name p2 }, none) := by
    intro pm'
    simp [LoadPlugin, hread2, heval2, hsym2]
  rw [hl1, hl2]
  simp only [GetPlugin, ← hname]
  have hrest : ∀ kv ∈ mapDelete (mapAssign pm.plugins p1.Meta.Name p1) p1.Meta.Name,
      kv.1 ≠ p1.Meta.Name ∧ kv.2.Meta.Name ≠ p1.Meta.Name := by
    intro kv hkv
    have hm := (mem_mapDelete _ _ _).1 hkv
    have hkey := hm.2
    have hin : kv ∈ pm.plugins := by
      have := hm.1
      simp only [mapAssign, List.mem_cons] at this
      rcases this with rfl | hmem
      · exact absurd rfl hkey
      · exact ((mem_mapDelete _ _ _).1 hmem).1
    exact ⟨hkey, by rw [← hinv kv hin]; exact hkey⟩
  refine ⟨trivial, trivial, mapIndex_mapAssign_self _ _ _, ?_, ?_, ?_, ?_⟩
  · rw [mapIndex_mapAssign_self]; rfl
  · simp only [PluginManager.keys, mapAssign, List.map_cons, List.count_cons_self,
      Nat.add_left_eq_self]
    rw [List.count_eq_zero]
    intro hmem
    obtain ⟨kv, hkv, hk⟩ := List.mem_map.1 hmem
    exact (hrest kv hkv).1 hk
  · rw [ListPlugins_eq_map]
    simp only [mapAssign, List.map_cons, List.filter_cons, hname, beq_self_eq_true, if_true,
      List.cons.injEq, true_and, List.filter_eq_nil_iff, List.mem_map, forall_exists_index,
      and_imp]
    intro p kv hkv hp
    have := (hrest kv (by simpa [mapAssign, hname] using hkv)).2
    simp [← hp, ← hname, this]
  · intro other hne
    rw [mapIndex_mapAssign_ne _ _ _ _ hne, mapIndex_mapAssign_ne _ _ _ _ hne]

/-- Witness of C2: loading version 1.0.0 and then version 2.0.0 of `sample_plugin` into the
sample registry leaves one entry of that name, the one of version 2.0.0. -/
theorem LoadPlugin_same_name_last_wins_witness :
    KeysAreNames sampleManager ∧
    GetPlugin (LoadPlugin sampleHost (LoadPlugin sampleHost sampleManager "v1.go").1 "v2.go").1
      samplePlugin.Meta.Name = some samplePluginV2 ∧
    (GetPlugin (LoadPlugin sampleHost (LoadPlugin sampleHost sampleManager "v1.go").1 "v2.go").1
      samplePlugin.Meta.Name).map (fun p => p.Meta.Version) = some "2.0.0" ∧
    (LoadPlugin sampleHost (LoadPlugin sampleHost sampleManager "v1.go").1 "v2.go").1.keys.count
      samplePlugin.Meta.Name = 1 ∧
    (ListPlugins (LoadPlugin sampleHost (LoadPlugin sampleHost sampleManager "v1.go").1
      "v2.go").1).filter (fun p => p.Meta.Name == samplePlugin.Meta.Name) = [samplePluginV2] := by
  have hinv : KeysAreNames sampleManager := by
    intro kv hkv
    simp only [sampleManager, List.mem_cons, List.mem_singleton, List.not_mem_nil, or_false] at hkv
    rcases hkv with rfl | rfl <;> rfl
  have h := LoadPlugin_same_name_last_wins sampleHost sampleHost sampleManager "v1.go" "v2.go"
    "v1" "v2"
    samplePlugin samplePluginV2 hinv rfl rfl rfl rfl rfl rfl rfl
  exact ⟨hinv, h.2.2.1, h.2.2.2.1, h.2.2.2.2.1, h.2.2.2.2.2.1⟩

/-- C3. Each of the four failures of `LoadPlugin` (file unreadable, evaluation error, symbol
`Plugin` not found, value that is no `VulnPlugin`) returns an error and the registry as it
was.  Whenever an error is returned the registry is the one before the call, and whenever no
error is returned the source evaluated to an instance that is now found under the name it
reports. -/
theorem LoadPlugin_all_or_nothing (h : Host) (pm : PluginManager) (path : String) :
    (∀ err, h.ReadFile path = .error err → LoadPlugin h pm path = (pm, some err)) ∧
    (∀ code err, h.ReadFile path = .ok code → h.EvalCode code = some err →
      LoadPlugin h pm path = (pm, some err)) ∧
    (∀ code err, h.ReadFile path = .ok code → h.EvalCode code = none →
      h.EvalPlugin code = .error err →
      LoadPlugin h pm path = (pm, some "plugin Symbol not found")) ∧
    (∀ code, h.ReadFile path = .ok code → h.EvalCode code = none →
      h.EvalPlugin code = .ok .other →
      LoadPlugin h pm path = (pm, some "Invalid plugin type")) ∧
    ((LoadPlugin h pm path).2 ≠ none → (LoadPlugin h pm path).1 = pm) ∧
    ((LoadPlugin h pm path).2 = none →
      ∃ code plugin, h.ReadFile path = .ok code ∧ h.EvalCode code = none ∧
        h.EvalPlugin code = .ok (.vuln plugin) ∧
        GetPlugin (LoadPlugin h pm path).1 plugin.Meta.Name = some plugin) := by
  refine ⟨?_, ?_, ?_, ?_, ?_, ?_⟩
  · intro err hr
    simp [LoadPlugin, hr]
  · intro code err hr he
    simp [LoadPlugin, hr, he]
  · intro code err hr he hs
    simp [LoadPlugin, hr, he, hs]
  · intro code hr he hs
    simp [LoadPlugin, hr, he, hs]
  · intro herr
    cases hr : h.ReadFile path with
    | error e => simp [LoadPlugin, hr]
    | ok code =>
      cases he : h.EvalCode code with
      | some e => simp [LoadPlugin, hr, he]
      | none =>
        cases hs : h.EvalPlugin code with
        | error e => simp [LoadPlugin, hr, he, hs]
        | ok v =>
          cases v with
          | other => simp [LoadPlugin, hr, he, hs]
          | vuln plugin => simp [LoadPlugin, hr, he, hs] at herr
  · intro hok
    cases hr : h.ReadFile path with
    | error e => simp [LoadPlugin, hr] at hok
    | ok code =>
      cases he : h.EvalCode code with
      | some e => simp [LoadPlugin, hr, he] at hok
      | none =>
        cases hs : h.EvalPlugin code with
        | error e => simp [LoadPlugin, hr, he, hs] at hok
        | ok v =>
          cases v with
          | other => simp [LoadPlugin, hr, he, hs] at hok
          | vuln plugin =>
            refine ⟨code, plugin, rfl, he, hs, ?_⟩
            simp only [LoadPlugin, hr, he, hs, GetPlugin]
            exact mapIndex_mapAssign_self _ _ _

/-- Witness of C3: on the sample host an unreadable path, a source that does not evaluate, a
source without the symbol, and a source whose symbol is no plugin all leave the sample
registry as it was, and a good source is found under its name afterwards. -/
theorem LoadPlugin_all_or_nothing_witness :
    LoadPlugin sampleHost sampleManager "missing.go" =
      (sampleManager, some "open missing.go: no such file or directory") ∧
    LoadPlugin sampleHost sampleManager "bad.go" =
      (sampleManager, some "1:1: expected 'package'") ∧
    LoadPlugin sampleHost sampleManager "empty.go" =
      (sampleManager, some "plugin Symbol not found") ∧
    LoadPlugin sampleHost sampleManager "int.go" = (sampleManager, some "Invalid plugin type") ∧
    (∃ code plugin, sampleHost.ReadFile "v2.go" = .ok code ∧ sampleHost.EvalCode code = none ∧
      sampleHost.EvalPlugin code = .ok (.vuln plugin) ∧
      GetPlugin (LoadPlugin sampleHost sampleManager "v2.go").1 plugin.Meta.Name =
        some plugin) := by
  have h1 := (LoadPlugin_all_or_nothing sampleHost sampleManager "missing.go").1
    "open missing.go: no such file or directory" rfl
  have h2 := (LoadPlugin_all_or_nothing sampleHost sampleManager "bad.go").2.1
    "bad" "1:1: expected 'package'" rfl rfl
  have h2' := (LoadPlugin_all_or_nothing sampleHost sampleManager "empty.go").2.2.1
    "empty" "undefined: Plugin" rfl rfl rfl
  have h3 := (LoadPlugin_all_or_nothing sampleHost sampleManager "int.go").2.2.2.1 "int" rfl rfl rfl
  have h4 := (LoadPlugin_all_or_nothing sampleHost sampleManager "v2.go").2.2.2.2.2 (by decide)
  exact ⟨h1, h2, h2', h3, h4⟩

theorem SearchPlugins_eq_filter (lowerRune : Char → Char) (pm : PluginManager)
    (keyword : String) :
    SearchPlugins lowerRune pm keyword =
      (ListPlugins pm).filter (fun p => decide (MatchesKeyword lowerRune keyword p)) := by
  rw [ListPlugins_eq_map]
  unfold SearchPlugins
  suffices hgen : ∀ (l : GoMap VulnPlugin) (acc : List VulnPlugin),
      l.foldl
        (fun results kv =>
          if Contains (ToLower lowerRune kv.2.Meta.Name) (ToLower lowerRune keyword) ||
              Contains (ToLower lowerRune kv.2.Meta.Description) (ToLower lowerRune keyword) then
            results ++ [kv.2]
          else results) acc =
        acc ++ (l.map Prod.snd).filter (fun p => decide (MatchesKeyword lowerRune keyword p)) by
    simpa using hgen pm.plugins []
  intro l
  induction l with
  | nil => simp
  | cons kv rest ih =>
    intro acc
    have hdec : (Contains (ToLower lowerRune kv.2.Meta.Name) (ToLower lowerRune keyword) ||
        Contains (ToLower lowerRune kv.2.Meta.Description) (ToLower lowerRune keyword)) =
        decide (MatchesKeyword lowerRune keyword kv.2) := by
      rw [Bool.eq_iff_iff]
      simp [Contains, containsChars_iff, MatchesKeyword]
    rw [List.foldl_cons, ih, hdec, List.map_cons, List.filter_cons]
    by_cases hm : MatchesKeyword lowerRune keyword kv.2 <;> simp [hm]

theorem isUpper_range (a : Char) (h : a.isUpper = true) : 65 ≤ a.toNat ∧ a.toNat ≤ 90 := by
  simp only [Char.isUpper, Bool.and_eq_true, decide_eq_true_eq, ge_iff_le] at h
  have h1 : (65 : UInt32).toNat ≤ a.val.toNat := h.1
  have h2 : a.val.toNat ≤ (90 : UInt32).toNat := h.2
  exact ⟨h1, h2⟩

theorem unicodeToLower_toLower_of_isUpper (lowerRune : Char → Char) (a : Char)
    (h : a.isUpper = true) :
    unicodeToLower lowerRune a.toLower = unicodeToLower lowerRune a := by
  obtain ⟨h1, h2⟩ := isUpper_range a h
  have ha : a = Char.ofNat a.toNat := (Char.ofNat_toNat a).symm
  generalize a.toNat = n at h1 h2 ha
  subst ha
  interval_cases n <;> rfl

/-- On a rune up to `MaxASCII`, `unicode.ToLower` is the lower-casing of the letters
`A`..`Z`, whatever the case tables are. -/
theorem unicodeToLower_ascii (lowerRune : Char → Char) (r : Char) (hr : r.toNat ≤ 0x7F) :
    unicodeToLower lowerRune r = r.toLower := by
  unfold unicodeToLower Char.toLower
  rw [if_pos hr]
  rfl

theorem unicodeToLower_of_variants (lowerRune : Char → Char) (a b : Char)
    (hab : AsciiCaseVariants a b) : unicodeToLower lowerRune a = unicodeToLower lowerRune b := by
  rcases hab with rfl | ⟨hup, rfl⟩ | ⟨hup, rfl⟩
  · rfl
  · exact (unicodeToLower_toLower_of_isUpper lowerRune a hup).symm
  · exact unicodeToLower_toLower_of_isUpper lowerRune b hup

theorem map_unicodeToLower_of_variants (lowerRune : Char → Char) (l1 l2 : List Char)
    (hl : List.Forall₂ AsciiCaseVariants l1 l2) :
    l1.map (unicodeToLower lowerRune) = l2.map (unicodeToLower lowerRune) := by
  induction hl with
  | nil => rfl
  | cons hab _ ih =>
    simp only [List.map_cons, List.cons.injEq]
    exact ⟨unicodeToLower_of_variants lowerRune _ _ hab, ih⟩

theorem ToLower_of_asciiCase (lowerRune : Char → Char) (k1 k2 : String)
    (hk : DifferOnlyInAsciiCase k1 k2) : ToLower lowerRune k1 = ToLower lowerRune k2 := by
  unfold ToLower
  rw [map_unicodeToLower_of_variants lowerRune k1.data k2.data hk]

/-- Counterexample to C4: the keywords `S` and `ſ` (long s, whose upper case is `S`) differ
only in letter case, yet on the sample registry the search for `S` returns `sample_plugin`
and the search for `ſ` returns nothing, since `strings.ToLower` maps `S` to `s` and leaves
the lower-case letter `ſ` as it is. -/
theorem SearchPlugins_long_s_differs :
    DifferOnlyInLetterCase sampleLowerTable sampleUpperTable "S" "ſ" ∧
    (SearchPlugins sampleLowerTable sampleManager "S").map (fun p => p.Meta.Name) =
      ["sample_plugin"] ∧
    (SearchPlugins sampleLowerTable sampleManager "ſ").map (fun p => p.Meta.Name) = [] := by
  refine ⟨?_, by decide, by decide⟩
  exact List.Forall₂.cons (Or.inr (by decide)) List.Forall₂.nil

/-- C4, amended.  `SearchPlugins(keyword)` is the list of loaded instances with those
dropped whose lower-cased name and lower-cased description both lack the lower-cased keyword
as a substring: an instance is returned exactly when it is loaded and matches, and no more
often than `ListPlugins` holds it.  Two keywords with the same `strings.ToLower` image return
the same result, and so do two keywords that differ only in the case of the letters `A`..`Z`,
whatever the Unicode case tables are.  The empty keyword returns every loaded instance. -/
theorem SearchPlugins_contract (lowerRune : Char → Char) (pm : PluginManager)
    (keyword : String) :
    SearchPlugins lowerRune pm keyword =
      (ListPlugins pm).filter (fun p => decide (MatchesKeyword lowerRune keyword p)) ∧
    (∀ p, p ∈ SearchPlugins lowerRune pm keyword ↔
      p ∈ ListPlugins pm ∧
        ((ToLower lowerRune keyword).data <:+: (ToLower lowerRune p.Meta.Name).data ∨
          (ToLower lowerRune keyword).data <:+: (ToLower lowerRune p.Meta.Description).data)) ∧
    (SearchPlugins lowerRune pm keyword).Sublist (ListPlugins pm) ∧
    (∀ keyword2, ToLower lowerRune keyword2 = ToLower lowerRune keyword →
      SearchPlugins lowerRune pm keyword2 = SearchPlugins lowerRune pm keyword) ∧
    (∀ keyword2, DifferOnlyInAsciiCase keyword2 keyword →
      SearchPlugins lowerRune pm keyword2 = SearchPlugins lowerRune pm keyword) ∧
    SearchPlugins lowerRune pm "" = ListPlugins pm := by
  have hsame : ∀ keyword2, ToLower lowerRune keyword2 = ToLower lowerRune keyword →
      SearchPlugins lowerRune pm keyword2 = SearchPlugins lowerRune pm keyword := by
    intro keyword2 hlow
    unfold SearchPlugins
    rw [hlow]
  refine ⟨SearchPlugins_eq_filter _ _ _, ?_, ?_, hsame, ?_, ?_⟩
  · intro p
    rw [SearchPlugins_eq_filter, List.mem_filter]
    simp [MatchesKeyword]
  · rw [SearchPlugins_eq_filter]
    exact List.filter_sublist _
  · intro keyword2 hcase
    exact hsame keyword2 (ToLower_of_asciiCase lowerRune keyword2 keyword hcase)
  · rw [SearchPlugins_eq_filter, List.filter_eq_self]
    intro p _
    simp [MatchesKeyword, ToLower]

/-- Witness of C4, amended: `SAMPLE` and `sample` differ only in the case of ASCII letters
and return the same instances of the sample registry.  There the searches for `SAMPLE` and
for `emo` return the sample plugin, whose name is `sample_plugin` and whose description is
`demo`, the search for `zzz` returns nothing and the empty keyword returns both plugins. -/
theorem SearchPlugins_contract_witness :
    DifferOnlyInAsciiCase "SAMPLE" "sample" ∧
    SearchPlugins sampleLowerTable sampleManager "SAMPLE" =
      SearchPlugins sampleLowerTable sampleManager "sample" ∧
    SearchPlugins sampleLowerTable sampleManager "SAMPLE" = [samplePlugin] ∧
    SearchPlugins sampleLowerTable sampleManager "emo" = [samplePlugin] ∧
    SearchPlugins sampleLowerTable sampleManager "zzz" = [] ∧
    SearchPlugins sampleLowerTable sampleManager "" = [samplePlugin, otherPlugin] := by
  have hcase : DifferOnlyInAsciiCase "SAMPLE" "sample" := by
    unfold DifferOnlyInAsciiCase
    repeat' first
      | exact List.Forall₂.nil
      | refine List.Forall₂.cons (Or.inr (Or.inl ⟨by decide, by decide⟩)) ?_
  exact ⟨hcase,
    (SearchPlugins_contract sampleLowerTable sampleManager "sample").2.2.2.2.1 "SAMPLE" hcase,
    rfl, rfl, rfl, rfl⟩

/-- C5. If `name` is not a key, `ExecutePlugin(name, target)` returns `false` and the
not-found error and calls no `Run`.  If `name` is the key of instance `p`, it calls the `Run`
of `p` once, with `target`, and returns what that call returns.  The registry is unchanged
in both cases. -/
theorem ExecutePlugin_contract (pm : PluginManager) (name target : String) :
    (name ∉ pm.keys →
      (ExecutePlugin pm name target).matched = false ∧
      (ExecutePlugin pm name target).err = some ("插件 '" ++ name ++ "' 不存在") ∧
      (ExecutePlugin pm name target).runs = []) ∧
    (∀ p, GetPlugin pm name = some p →
      (ExecutePlugin pm name target).runs = [{ plugin := p, target := target }] ∧
      ((ExecutePlugin pm name target).matched, (ExecutePlugin pm name target).err) =
        p.Run target) ∧
    (name ∈ pm.keys → ∃ p, GetPlugin pm name = some p) ∧
    (ExecutePlugin pm name target).pm = pm := by
  refine ⟨?_, ?_, ?_, ?_⟩
  · intro hkey
    have hidx : GetPlugin pm name = none := (mapIndex_eq_none_iff _ _).2 hkey
    simp [ExecutePlugin, hidx]
  · intro p hp
    simp [ExecutePlugin, hp]
  · intro hkey
    cases hidx : GetPlugin pm name with
    | none => exact absurd hkey ((mapIndex_eq_none_iff _ _).1 hidx)
    | some p => exact ⟨p, rfl⟩
  · unfold ExecutePlugin
    cases GetPlugin pm name <;> rfl

/-- Witness of C5: executing the absent name `zzz` runs nothing and fails, and executing
`sample_plugin` on `fail-host` runs that instance once on that target and returns its
verdict. -/
theorem ExecutePlugin_contract_witness :
    ((ExecutePlugin sampleManager "zzz" "test-host").matched = false ∧
      (ExecutePlugin sampleManager "zzz" "test-host").err = some ("插件 '" ++ "zzz" ++ "' 不存在") ∧
      (ExecutePlugin sampleManager "zzz" "test-host").runs = []) ∧
    ((ExecutePlugin sampleManager "sample_plugin" "fail-host").runs =
        [{ plugin := samplePlugin, target := "fail-host" }] ∧
      ((ExecutePlugin sampleManager "sample_plugin" "fail-host").matched,
        (ExecutePlugin sampleManager "sample_plugin" "fail-host").err) =
        samplePlugin.Run "fail-host") :=
  ⟨(ExecutePlugin_contract sampleManager "zzz" "test-host").1 (by decide),
    (ExecutePlugin_contract sampleManager "sample_plugin" "fail-host").2.1 samplePlugin rfl⟩

/-! ## The command history -/

theorem AddToHistory_step (s : Shell) (line : String) (n : Nat) (hn : 1 ≤ n)
    (hmax : s.HistoryMaxSize = n) (hlen : s.History.length ≤ n) :
    ∃ h1, AddToHistory s line = some { s with History := h1 } ∧
      h1 <:+ s.History ++ [line] ∧ h1.length = min (s.History.length + 1) n := by
  unfold AddToHistory
  rw [hmax]
  by_cases hge : (s.History.length : Int) ≥ (n : Int)
  · rw [if_pos hge]
    have hfull : s.History.length = n := by omega
    cases hH : s.History with
    | nil => rw [hH] at hfull; simp at hfull; omega
    | cons first rest =>
      refine ⟨rest ++ [line], rfl, ?_, ?_⟩
      · exact List.suffix_cons first (rest ++ [line])
      · rw [hH] at hfull
        simp only [List.length_cons] at hfull
        simp only [List.length_append, List.length_cons, List.length_nil]
        omega
  · rw [if_neg hge]
    refine ⟨s.History ++ [line], rfl, List.suffix_refl _, ?_⟩
    simp only [List.length_append, List.length_cons, List.length_nil]
    omega

theorem addAllToHistory_suffix (n : Nat) (hn : 1 ≤ n) (lines : List String) :
    ∀ (s : Shell), s.HistoryMaxSize = n → s.History.length ≤ n →
      ∃ h1, addAllToHistory s lines = some { s with History := h1 } ∧
        h1 <:+ s.History ++ lines ∧ h1.length = min (s.History.length + lines.length) n := by
  induction lines with
  | nil =>
    intro s _ hlen
    refine ⟨s.History, rfl, by simp, ?_⟩
    simp only [List.length_nil, Nat.add_zero]
    omega
  | cons line rest ih =>
    intro s hmax hlen
    obtain ⟨h1, hstep, hsuf, hl1⟩ := AddToHistory_step s line n hn hmax hlen
    obtain ⟨h2, hall, hsuf2, hl2⟩ := ih { s with History := h1 } hmax (by simp only; omega)
    refine ⟨h2, ?_, ?_, ?_⟩
    · simp only [addAllToHistory, hstep, hall]
    · have hmono : h1 ++ rest <:+ (s.History ++ [line]) ++ rest := by
        obtain ⟨t, ht⟩ := hsuf
        exact ⟨t, by rw [← ht, List.append_assoc]⟩
      have := hsuf2.trans hmono
      simpa using this
    · simp only [List.length_cons] at hl2 ⊢
      omega

theorem addAllToHistory_eq_drop (n : Nat) (hn : 1 ≤ n) (lines : List String) (s : Shell)
    (hmax : s.HistoryMaxSize = n) (hempty : s.History = []) :
    addAllToHistory s lines = some { s with History := lines.drop (lines.length - n) } ∧
      (lines.drop (lines.length - n)).length = min lines.length n := by
  obtain ⟨h1, hall, hsuf, hl⟩ := addAllToHistory_suffix n hn lines s hmax (by simp [hempty])
  rw [hempty] at hsuf hl
  simp only [List.nil_append, List.length_nil, Nat.zero_add] at hsuf hl
  have hdrop : h1 = lines.drop (lines.length - n) := by
    have := List.suffix_iff_eq_drop.1 hsuf
    rw [this, hl]
    congr 1
    omega
  subst hdrop
  exact ⟨hall, hl⟩

/-- C6. A shell with capacity `N >= 1` and an empty history, to which the lines of a
sequence are added one by one with `AddToHistory`: every call returns, and the history in
the end is the sequence without its first `n - N` lines, that is its last `min n N` lines in
the order they were added.  Nothing else of the shell changes. -/
theorem AddToHistory_keeps_newest (N : Int) (hN : 1 ≤ N) (s : Shell)
    (hmax : s.HistoryMaxSize = N) (hempty : s.History = []) (lines : List String) :
    addAllToHistory s lines =
      some { s with History := lines.drop (lines.length - N.toNat) } ∧
    lines.drop (lines.length - N.toNat) <:+ lines ∧
    (lines.drop (lines.length - N.toNat)).length = min lines.length N.toNat := by
  have hn : 1 ≤ N.toNat := by omega
  have hmax2 : s.HistoryMaxSize = (N.toNat : Int) := by rw [hmax]; omega
  obtain ⟨h1, h2⟩ := addAllToHistory_eq_drop N.toNat hn lines s hmax2 hempty
  exact ⟨h1, List.drop_suffix _ _, h2⟩

/-- Witness of C6: adding `cmd1`, ..., `cmd101` to the history of a new shell, whose
capacity is 100, leaves the lines from the second one on, in order. -/
theorem AddToHistory_keeps_newest_witness :
    (1 : Int) ≤ 100 ∧ NewShell.HistoryMaxSize = 100 ∧ NewShell.History = [] ∧
    addAllToHistory NewShell lines101 = some { NewShell with History := lines101.drop 1 } ∧
    (lines101.drop 1).length = 100 := by
  have h := AddToHistory_keeps_newest 100 (by decide) NewShell rfl rfl lines101
  have hlen : lines101.length - (100 : Int).toNat = 1 := by
    simp [lines101]
  rw [hlen] at h
  refine ⟨by decide, rfl, rfl, h.1, ?_⟩
  rw [h.2.2]
  simp [lines101]

/-- C7. From an empty history and for every value of `HistoryMaxSize`, after one or more
`AddToHistory` calls that all returned, the length of the history is at most
`HistoryMaxSize`, which the calls leave as it is.  With `HistoryMaxSize >= 1` every call
returns; with `HistoryMaxSize <= 0` the first call panics, so that no history is produced. -/
theorem History_never_exceeds_max (s : Shell) (hempty : s.History = [])
    (lines : List String) (hcalls : lines ≠ []) :
    (∀ s1, addAllToHistory s lines = some s1 →
      (s1.History.length : Int) ≤ s.HistoryMaxSize ∧ s1.HistoryMaxSize = s.HistoryMaxSize) ∧
    (1 ≤ s.HistoryMaxSize → ∃ s1, addAllToHistory s lines = some s1) ∧
    (s.HistoryMaxSize ≤ 0 → addAllToHistory s lines = none) := by
  by_cases hN : 1 ≤ s.HistoryMaxSize
  · have hn : 1 ≤ s.HistoryMaxSize.toNat := by omega
    have hmax2 : s.HistoryMaxSize = (s.HistoryMaxSize.toNat : Int) := by omega
    obtain ⟨h1, h2⟩ := addAllToHistory_eq_drop _ hn lines s hmax2 hempty
    refine ⟨?_, fun _ => ⟨_, h1⟩, fun hle => by omega⟩
    intro s1 hs1
    rw [h1] at hs1
    cases hs1
    refine ⟨?_, rfl⟩
    simp only
    rw [h2]
    omega
  · have hnone : addAllToHistory s lines = none := by
      cases lines with
      | nil => exact absurd rfl hcalls
      | cons line rest =>
        have hle : s.HistoryMaxSize ≤ 0 := by omega
        simp [addAllToHistory, AddToHistory, hempty, hle]
    refine ⟨?_, fun h1 => absurd h1 hN, fun _ => hnone⟩
    intro s1 hs1
    rw [hnone] at hs1
    cases hs1

/-- Witness of C7: five lines added to a history of capacity 3 leave three lines, and with
capacity 0 the first call already panics. -/
theorem History_never_exceeds_max_witness :
    (∃ s1, addAllToHistory { NewShell with HistoryMaxSize := 3 } ["a", "b", "c", "d", "e"] =
        some s1 ∧ (s1.History.length : Int) ≤ 3) ∧
    addAllToHistory { NewShell with HistoryMaxSize := 0 } ["a"] = none := by
  have h3 := History_never_exceeds_max { NewShell with HistoryMaxSize := 3 } rfl
    ["a", "b", "c", "d", "e"] (by decide)
  have h0 := History_never_exceeds_max { NewShell with HistoryMaxSize := 0 } rfl ["a"] (by decide)
  obtain ⟨s1, hs1⟩ := h3.2.1 (by decide)
  exact ⟨⟨s1, hs1, (h3.1 s1 hs1).1⟩, h0.2.2 (by decide)⟩

/-! ## The session context: set, unset, use, unload, run -/

theorem fieldsAux_ne_empty (cs : List Char) :
    ∀ (cur : List Char) (t : String), t ∈ fieldsAux cur cs → t ≠ "" := by
  have hmk : ∀ cur : List Char, cur.isEmpty = false → (⟨cur.reverse⟩ : String) ≠ "" := by
    intro cur hcur heq
    have hdata : cur.reverse = [] := congrArg String.data heq
    rw [List.reverse_eq_nil_iff] at hdata
    rw [hdata] at hcur
    simp at hcur
  induction cs with
  | nil =>
    intro cur t ht
    cases hcur : cur.isEmpty with
    | true => simp [fieldsAux, hcur] at ht
    | false =>
      simp only [fieldsAux, hcur, Bool.false_eq_true, if_false, List.mem_singleton] at ht
      rw [ht]
      exact hmk cur hcur
  | cons c cs ih =>
    intro cur t ht
    rw [fieldsAux] at ht
    by_cases hsp : IsSpace c = true
    · rw [if_pos hsp] at ht
      cases hcur : cur.isEmpty with
      | true =>
        rw [hcur, if_pos rfl] at ht
        exact ih [] t ht
      | false =>
        simp only [hcur, Bool.false_eq_true, if_false, List.mem_cons] at ht
        rcases ht with rfl | ht
        · exact hmk cur hcur
        · exact ih [] t ht
    · rw [if_neg hsp] at ht
      exact ih (c :: cur) t ht

/-- The words `strings.Fields` cuts a command line into, which are the command name and the
arguments a handler receives, are never empty. -/
theorem Fields_ne_empty (line t : String) (ht : t ∈ Fields line) : t ≠ "" :=
  fieldsAux_ne_empty line.data [] t ht

theorem find?_none_of_unloaded (pm : PluginManager) (name : String) (hinv : KeysAreNames pm) :
    (ListPlugins (UnloadPlugin pm name).1).find? (fun p => p.Meta.Name == name) = none ∨
      (UnloadPlugin pm name).2 ≠ none := by
  cases hidx : mapIndex pm.plugins name with
  | none => right; simp [UnloadPlugin, hidx]
  | some p0 =>
    left
    rw [List.find?_eq_none]
    intro p hp
    simp only [UnloadPlugin, hidx, ListPlugins_eq_map, List.mem_map] at hp
    obtain ⟨kv, hkv, rfl⟩ := hp
    have hm := (mem_mapDelete _ _ _).1 hkv
    have := hinv kv hm.1
    simp only [beq_iff_eq]
    rw [← this]
    exact hm.2

/-- Counterexample to C8: in the shell after start-up, where no plugin is selected, the
commands `set target example.com`, `unset target`, `run` end with the error that asks to
select a plugin first, which is not the target-required error. -/
theorem run_after_unset_not_target_error :
    (cmdRunPlugin (cmdUnsetOption (cmdSetOption sampleShell ["target", "example.com"]).shell
        ["target"]).shell []).err = some "请先使用 'use <plugin_name>' 选择一个插件" ∧
    (cmdRunPlugin (cmdUnsetOption (cmdSetOption sampleShell ["target", "example.com"]).shell
        ["target"]).shell []).err ≠ some "请先使用 'set target <target_value>' 设置目标" := by
  decide

/-- C8, amended.  After `set target X` the session target and the option `target` are both
`X`, and `show options` prints `X` as the target.  After a following `unset target` the
session target is empty and the options have no `target` entry.  A following `run` calls no
`Run` and fails: with the target-required error when a plugin is selected, and with the error
that asks to select a plugin first when none is selected. -/
theorem set_unset_target_then_run (s : Shell) (X : String) :
    (cmdSetOption s ["target", X]).err = none ∧
    (cmdSetOption s ["target", X]).shell.Context.Target = X ∧
    mapIndex (cmdSetOption s ["target", X]).shell.Context.Options "target" = some X ∧
    (cmdShow (cmdSetOption s ["target", X]).shell ["options"]).out =
      ["当前设置:\n", "=========\n", "当前插件: " ++ s.Context.PluginName ++ "\n",
        "目标: " ++ X ++ "\n"] ++
      (s.Context.Options.filter (fun kv => kv.1 ≠ "target")).map
        (fun kv => kv.1 ++ ": " ++ kv.2 ++ "\n") ∧
    (cmdUnsetOption (cmdSetOption s ["target", X]).shell ["target"]).err = none ∧
    (cmdUnsetOption (cmdSetOption s ["target", X]).shell ["target"]).shell.Context.Target = "" ∧
    "target" ∉ (cmdUnsetOption (cmdSetOption s ["target", X]).shell
      ["target"]).shell.Context.Options.map Prod.fst ∧
    (cmdRunPlugin (cmdUnsetOption (cmdSetOption s ["target", X]).shell
      ["target"]).shell []).runs = [] ∧
    (s.Context.PluginName ≠ "" →
      (cmdRunPlugin (cmdUnsetOption (cmdSetOption s ["target", X]).shell
        ["target"]).shell []).err = some "请先使用 'set target <target_value>' 设置目标") ∧
    (s.Context.PluginName = "" →
      (cmdRunPlugin (cmdUnsetOption (cmdSetOption s ["target", X]).shell
        ["target"]).shell []).err = some "请先使用 'use <plugin_name>' 选择一个插件") := by
  refine ⟨rfl, ?_, ?_, ?_, rfl, ?_, ?_, ?_, ?_, ?_⟩
  · simp [cmdSetOption]
  · simp [cmdSetOption, mapIndex_mapAssign_self]
  · have hfilter : (mapAssign s.Context.Options "target" X).filter (fun kv => kv.1 ≠ "target") =
        s.Context.Options.filter (fun kv => kv.1 ≠ "target") := by
      simp [mapAssign, mapDelete_eq_filter, List.filter_filter]
    simp only [cmdShow, cmdSetOption, if_true, hfilter]
  · simp [cmdUnsetOption]
  · rw [← mapIndex_eq_none_iff]
    simp [cmdUnsetOption, mapIndex_mapDelete_self]
  · simp only [cmdRunPlugin, cmdUnsetOption, cmdSetOption, if_true]
    split <;> rfl
  · intro hsel
    simp [cmdRunPlugin, cmdUnsetOption, cmdSetOption, hsel]
  · intro hsel
    simp [cmdRunPlugin, cmdUnsetOption, cmdSetOption, hsel]

/-- Witness of C8, amended: in the sample shell after `use sample_plugin`, where a plugin is
selected, `set target example.com`, `unset target`, `run` ends with the target-required
error. -/
theorem set_unset_target_then_run_witness :
    (cmdUsePlugin sampleShell ["sample_plugin"]).shell.Context.PluginName ≠ "" ∧
    (cmdRunPlugin (cmdUnsetOption (cmdSetOption (cmdUsePlugin sampleShell
      ["sample_plugin"]).shell ["target", "example.com"]).shell ["target"]).shell []).err =
      some "请先使用 'set target <target_value>' 设置目标" := by
  have hsel : (cmdUsePlugin sampleShell ["sample_plugin"]).shell.Context.PluginName ≠ "" := by
    decide
  exact ⟨hsel, (set_unset_target_then_run (cmdUsePlugin sampleShell ["sample_plugin"]).shell
    "example.com").2.2.2.2.2.2.2.2.1 hsel⟩

/-- C9. A shell whose registry stores every instance under its name, in which `P` is
selected and shown in the prompt, `P` is loaded and the target is not empty; `P`, being the
argument word of `use P`, is not empty (`Fields_ne_empty`).  Then `unload P` succeeds and calls no `Run`, `P` is no longer found by
`GetPlugin` and no listed instance is named `P`, while the session context and the prompt
are as before and still name `P`.  A later `run` fails with the plugin-not-found error for
`P`, calls no `Run` and leaves the shell, hence the session context, as it is. -/
theorem unload_selected_then_run (s : Shell) (P : String) (args : List String)
    (hinv : KeysAreNames s.PluginMgr)
    (hsel : s.Context.PluginName = P) (hprompt : s.Prompt = "luna (" ++ P ++ ") > ")
    (hP : P ≠ "") (htarget : s.Context.Target ≠ "") (hloaded : P ∈ s.PluginMgr.keys) :
    (cmdUnloadPlugin s [P]).err = none ∧
    (cmdUnloadPlugin s [P]).runs = [] ∧
    GetPlugin (cmdUnloadPlugin s [P]).shell.PluginMgr P = none ∧
    (∀ p ∈ ListPlugins (cmdUnloadPlugin s [P]).shell.PluginMgr, p.Meta.Name ≠ P) ∧
    (cmdUnloadPlugin s [P]).shell.Context = s.Context ∧
    (cmdUnloadPlugin s [P]).shell.Context.PluginName = P ∧
    (cmdUnloadPlugin s [P]).shell.Prompt = "luna (" ++ P ++ ") > " ∧
    (cmdRunPlugin (cmdUnloadPlugin s [P]).shell args).err = some ("找不到插件: " ++ P) ∧
    (cmdRunPlugin (cmdUnloadPlugin s [P]).shell args).runs = [] ∧
    (cmdRunPlugin (cmdUnloadPlugin s [P]).shell args).shell = (cmdUnloadPlugin s [P]).shell := by
  obtain ⟨p0, hp0⟩ : ∃ p0, mapIndex s.PluginMgr.plugins P = some p0 := by
    cases hidx : mapIndex s.PluginMgr.plugins P with
    | none => exact absurd hloaded ((mapIndex_eq_none_iff _ _).1 hidx)
    | some p0 => exact ⟨p0, rfl⟩
  have hun : UnloadPlugin s.PluginMgr P = ({ plugins := mapDelete s.PluginMgr.plugins P }, none) := by
    simp [UnloadPlugin, hp0]
  have hcmd : cmdUnloadPlugin s [P] =
      { shell := { s with PluginMgr := { plugins := mapDelete s.PluginMgr.plugins P } }
        out := ["插件 '" ++ P ++ "' 已卸载\n"] } := by
    simp [cmdUnloadPlugin, hun]
  have hfind : (ListPlugins { plugins := mapDelete s.PluginMgr.plugins P }).find?
      (fun p => p.Meta.Name == P) = none := by
    rcases find?_none_of_unloaded s.PluginMgr P hinv with h | h
    · rw [hun] at h; exact h
    · rw [hun] at h; exact absurd rfl h
  rw [hcmd]
  refine ⟨rfl, rfl, mapIndex_mapDelete_self _ _, ?_, rfl, hsel, hprompt, ?_, ?_, ?_⟩
  · intro p hp hname
    have := List.find?_eq_none.1 hfind p hp
    simp [hname] at this
  · simp [cmdRunPlugin, hsel, hP, htarget, hfind]
  · simp [cmdRunPlugin, hsel, hP, htarget, hfind]
  · simp [cmdRunPlugin, hsel, hP, htarget, hfind]

/-- Witness of C9: the sample shell after `use sample_plugin` and `set target example.com`
meets the conditions, and there `unload sample_plugin` followed by `run` ends with the
plugin-not-found error. -/
theorem unload_selected_then_run_witness :
    (cmdUsePlugin sampleShell ["sample_plugin"]).err = none ∧
    selectedShell.Context.PluginName = "sample_plugin" ∧
    selectedShell.Context.Target = "example.com" ∧
    (cmdUnloadPlugin selectedShell ["sample_plugin"]).err = none ∧
    (cmdUnloadPlugin selectedShell ["sample_plugin"]).shell.Prompt =
      "luna (" ++ "sample_plugin" ++ ") > " ∧
    (cmdRunPlugin (cmdUnloadPlugin selectedShell ["sample_plugin"]).shell []).err =
      some ("找不到插件: " ++ "sample_plugin") ∧
    (cmdRunPlugin (cmdUnloadPlugin selectedShell ["sample_plugin"]).shell []).runs = [] := by
  have hinv : KeysAreNames selectedShell.PluginMgr := by
    intro kv hkv
    have hkv2 : kv ∈ sampleManager.plugins := hkv
    simp only [sampleManager, List.mem_cons, List.mem_singleton, List.not_mem_nil, or_false] at hkv2
    rcases hkv2 with rfl | rfl <;> rfl
  have h := unload_selected_then_run selectedShell "sample_plugin" [] hinv rfl rfl (by decide)
    (by decide) (by decide)
  exact ⟨by decide, rfl, rfl, h.1, h.2.2.2.2.2.2.1, h.2.2.2.2.2.2.2.1, h.2.2.2.2.2.2.2.2.1⟩

/-- C10. `use name` returns no error exactly when some loaded instance reports the name
`name`.  On success the selected plugin becomes `name` and the prompt becomes
`luna (name) > `.  On failure the error is the plugin-not-found error and the selected
plugin and the prompt are as before.  In both cases the target, the options, the registry,
the history and the command table are as before, and no `Run` is called. -/
theorem cmdUsePlugin_contract (s : Shell) (name : String) (more : List String) :
    ((cmdUsePlugin s (name :: more)).err = none ↔
      ∃ p ∈ ListPlugins s.PluginMgr, p.Meta.Name = name) ∧
    ((cmdUsePlugin s (name :: more)).err = none →
      (cmdUsePlugin s (name :: more)).shell.Context.PluginName = name ∧
      (cmdUsePlugin s (name :: more)).shell.Prompt = "luna (" ++ name ++ ") > ") ∧
    ((cmdUsePlugin s (name :: more)).err ≠ none →
      (cmdUsePlugin s (name :: more)).err = some ("找不到插件: " ++ name) ∧
      (cmdUsePlugin s (name :: more)).shell.Context.PluginName = s.Context.PluginName ∧
      (cmdUsePlugin s (name :: more)).shell.Prompt = s.Prompt) ∧
    (cmdUsePlugin s (name :: more)).shell.Context.Target = s.Context.Target ∧
    (cmdUsePlugin s (name :: more)).shell.Context.Options = s.Context.Options ∧
    (cmdUsePlugin s (name :: more)).shell.PluginMgr = s.PluginMgr ∧
    (cmdUsePlugin s (name :: more)).shell.History = s.History ∧
    (cmdUsePlugin s (name :: more)).shell.HistoryMaxSize = s.HistoryMaxSize ∧
    (cmdUsePlugin s (name :: more)).shell.Commands = s.Commands ∧
    (cmdUsePlugin s (name :: more)).runs = [] := by
  by_cases hfound : (ListPlugins s.PluginMgr).any (fun p => p.Meta.Name == name) = true
  · have hex : ∃ p ∈ ListPlugins s.PluginMgr, p.Meta.Name = name := by
      simpa using hfound
    simp [cmdUsePlugin, hfound, hex]
  · have hex : ¬ ∃ p ∈ ListPlugins s.PluginMgr, p.Meta.Name = name := by
      simpa using hfound
    have hany : (ListPlugins s.PluginMgr).any (fun p => p.Meta.Name == name) = false := by
      simpa using hfound
    simp only [cmdUsePlugin, hany]
    simp [hex]

/-- Witness of C10: in the sample shell `use sample_plugin` succeeds and sets selection and
prompt, and `use zzz` fails with the plugin-not-found error and keeps them. -/
theorem cmdUsePlugin_contract_witness :
    ((cmdUsePlugin sampleShell ["sample_plugin"]).shell.Context.PluginName = "sample_plugin" ∧
      (cmdUsePlugin sampleShell ["sample_plugin"]).shell.Prompt =
        "luna (" ++ "sample_plugin" ++ ") > ") ∧
    ((cmdUsePlugin sampleShell ["zzz"]).err = some ("找不到插件: " ++ "zzz") ∧
      (cmdUsePlugin sampleShell ["zzz"]).shell.Context.PluginName =
        sampleShell.Context.PluginName ∧
      (cmdUsePlugin sampleShell ["zzz"]).shell.Prompt = sampleShell.Prompt) :=
  ⟨(cmdUsePlugin_contract sampleShell "sample_plugin" []).2.1 (by decide),
    (cmdUsePlugin_contract sampleShell "zzz" []).2.2.1 (by decide)⟩

/-! ## Registries built by Load and Unload -/

theorem runAction_frame (h : Host) (lowerRune : Char → Char) (a : Handler) (s : Shell)
    (args : List String) :
    (runAction h lowerRune a s args).shell.Commands = s.Commands ∧
    (runAction h lowerRune a s args).shell.HistoryMaxSize = s.HistoryMaxSize ∧
    ((runAction h lowerRune a s args).exited = true ↔ a = .cmdExit) ∧
    ((runAction h lowerRune a s args).err ≠ none →
      (runAction h lowerRune a s args).exited = false) := by
  cases a
  case cmdHelp => simp only [runAction, cmdHelp]; (repeat' split) <;> simp
  case cmdExit => simp [runAction, cmdExit]
  case cmdLoadPlugin => simp only [runAction, cmdLoadPlugin]; (repeat' split) <;> simp
  case cmdListPlugins => simp only [runAction, cmdListPlugins]; (repeat' split) <;> simp
  case cmdSearchPlugins => simp only [runAction, cmdSearchPlugins]; (repeat' split) <;> simp
  case cmdExecPlugin =>
    simp only [runAction, cmdExecPlugin]
    (repeat' split) <;> simp [ExecutePlugin]
  case cmdUnloadPlugin => simp only [runAction, cmdUnloadPlugin]; (repeat' split) <;> simp
  case cmdSetOption => simp only [runAction, cmdSetOption]; (repeat' split) <;> simp
  case cmdUnsetOption => simp only [runAction, cmdUnsetOption]; (repeat' split) <;> simp
  case cmdUsePlugin => simp only [runAction, cmdUsePlugin]; (repeat' split) <;> simp
  case cmdRunPlugin => simp only [runAction, cmdRunPlugin]; (repeat' split) <;> simp
  case cmdShow => simp only [runAction, cmdShow, cmdListPlugins]; (repeat' split) <;> simp
  case cmdHistory => simp only [runAction, cmdHistory]; (repeat' split) <;> simp

theorem setupCommands_table :
    (setupCommands NewShell).Commands.map (fun kv => (kv.1, kv.2.Action)) =
      [("history", .cmdHistory), ("show", .cmdShow), ("run", .cmdRunPlugin),
        ("use", .cmdUsePlugin), ("unset", .cmdUnsetOption), ("set", .cmdSetOption),
        ("unload", .cmdUnloadPlugin), ("exec", .cmdExecPlugin), ("search", .cmdSearchPlugins),
        ("list", .cmdListPlugins), ("load", .cmdLoadPlugin), ("exit", .cmdExit),
        ("help", .cmdHelp)] := by
  decide

theorem mapIndex_map {β γ : Type} (f : β → γ) (m : GoMap β) (k : String) :
    mapIndex (m.map (fun kv => (kv.1, f kv.2))) k = (mapIndex m k).map f := by
  induction m with
  | nil => rfl
  | cons kv rest ih =>
    obtain ⟨k', v⟩ := kv
    by_cases hk : k' = k <;> simp [mapIndex, hk, ih]

theorem table_exit (name : String) (a : Handler)
    (hidx : mapIndex
      [("history", Handler.cmdHistory), ("show", .cmdShow), ("run", .cmdRunPlugin),
        ("use", .cmdUsePlugin), ("unset", .cmdUnsetOption), ("set", .cmdSetOption),
        ("unload", .cmdUnloadPlugin), ("exec", .cmdExecPlugin), ("search", .cmdSearchPlugins),
        ("list", .cmdListPlugins), ("load", .cmdLoadPlugin), ("exit", .cmdExit),
        ("help", .cmdHelp)] name = some a) :
    a = .cmdExit ↔ name = "exit" := by
  have hall : ∀ kv ∈
      [("history", Handler.cmdHistory), ("show", .cmdShow), ("run", .cmdRunPlugin),
        ("use", .cmdUsePlugin), ("unset", .cmdUnsetOption), ("set", .cmdSetOption),
        ("unload", .cmdUnloadPlugin), ("exec", .cmdExecPlugin), ("search", .cmdSearchPlugins),
        ("list", .cmdListPlugins), ("load", .cmdLoadPlugin), ("exit", .cmdExit),
        ("help", .cmdHelp)], (kv.2 = Handler.cmdExit ↔ kv.1 = "exit") := by
    decide
  exact hall (name, a) (mapIndex_mem _ _ _ hidx)

theorem setupCommands_exit (name : String) (cmd : Command)
    (hidx : mapIndex (setupCommands NewShell).Commands name = some cmd) :
    cmd.Action = .cmdExit ↔ name = "exit" := by
  have hmap := mapIndex_map Command.Action (setupCommands NewShell).Commands name
  rw [hidx] at hmap
  have htab := setupCommands_table
  rw [htab] at hmap
  exact table_exit name cmd.Action hmap

theorem AddToHistory_some (s : Shell) (line : String) (hcap : 1 ≤ s.HistoryMaxSize) :
    ∃ s1, AddToHistory s line = some s1 ∧ s1.Commands = s.Commands ∧
      s1.HistoryMaxSize = s.HistoryMaxSize := by
  unfold AddToHistory
  by_cases hge : (s.History.length : Int) ≥ s.HistoryMaxSize
  · rw [if_pos hge]
    cases hH : s.History with
    | nil => rw [hH] at hge; simp only [List.length_nil, Nat.cast_zero] at hge; omega
    | cons first rest => exact ⟨_, rfl, rfl, rfl⟩
  · rw [if_neg hge]
    exact ⟨_, rfl, rfl, rfl⟩

theorem loopBody_round (h : Host) (lowerRune : Char → Char) (s : Shell) (r : PromptResult)
    (htable : s.Commands = (setupCommands NewShell).Commands) (hcap : 1 ≤ s.HistoryMaxSize) :
    ∃ o, loopBody h lowerRune s r = some o ∧ (o.exited = true ↔ ExitEvent r) ∧
      o.shell.Commands = s.Commands ∧ o.shell.HistoryMaxSize = s.HistoryMaxSize ∧
      (o.err ≠ none → o.exited = false) := by
  cases r with
  | interrupt => exact ⟨_, rfl, by simp [cmdExit, ExitEvent], rfl, rfl, by simp [cmdExit]⟩
  | eof => exact ⟨_, rfl, by simp [cmdExit, ExitEvent], rfl, rfl, by simp [cmdExit]⟩
  | failed err => exact ⟨_, rfl, by simp [ExitEvent], rfl, rfl, by simp⟩
  | selected line =>
    unfold loopBody
    by_cases hblank : TrimSpace line = ""
    · refine ⟨{ shell := s, out := [s.Prompt] }, by simp [hblank], ?_, rfl, rfl, by simp⟩
      have hnone : (Fields "").head? = none := by decide
      simp [ExitEvent, hblank, hnone]
    · obtain ⟨s1, hs1, hc1, hm1⟩ := AddToHistory_some s (TrimSpace line) hcap
      simp only [hblank, if_false, hs1]
      cases hf : Fields (TrimSpace line) with
      | nil =>
        refine ⟨_, rfl, ?_, hc1, hm1, by simp⟩
        simp [ExitEvent, hf]
      | cons cmdName args =>
        dsimp only
        have hev : ExitEvent (.selected line) ↔ cmdName = "exit" := by
          simp [ExitEvent, hf]
        cases hidx : mapIndex s1.Commands cmdName with
        | none =>
          refine ⟨_, rfl, ?_, hc1, hm1, by simp⟩
          rw [hev]
          have hne : cmdName ≠ "exit" := by
            rintro rfl
            rw [hc1, htable] at hidx
            have hsome : (mapIndex (setupCommands NewShell).Commands "exit").isSome = true := by
              decide
            rw [hidx] at hsome
            simp at hsome
          simp [hne]
        | some cmd =>
          dsimp only
          obtain ⟨hfc, hfm, hfe, hferr⟩ := runAction_frame h lowerRune cmd.Action s1 args
          have hexit : cmd.Action = .cmdExit ↔ cmdName = "exit" := by
            rw [hc1, htable] at hidx
            exact setupCommands_exit cmdName cmd hidx
          cases herr : (runAction h lowerRune cmd.Action s1 args).err with
          | none =>
            refine ⟨_, rfl, ?_, hfc.trans hc1, hfm.trans hm1, ?_⟩
            · simp only; rw [hfe, hexit, hev]
            · simp only; intro hne; exact absurd rfl hne
          | some e =>
            refine ⟨_, rfl, ?_, hfc.trans hc1, hfm.trans hm1, ?_⟩
            · simp only; rw [hfe, hexit, hev]
            · simp only; intro _; exact hferr (by rw [herr]; simp)

theorem runLoop_exited_iff (h : Host) (lowerRune : Char → Char) (inputs : List PromptResult) :
    ∀ s : Shell, s.Commands = (setupCommands NewShell).Commands → 1 ≤ s.HistoryMaxSize →
      ∃ o, runLoop h lowerRune s inputs = some o ∧
        (o.exited = true ↔ ∃ r ∈ inputs, ExitEvent r) := by
  induction inputs with
  | nil =>
    intro s _ _
    exact ⟨{ shell := s }, rfl, by simp⟩
  | cons r rest ih =>
    intro s htable hcap
    obtain ⟨o, ho, hex, hc, hm, _⟩ := loopBody_round h lowerRune s r htable hcap
    by_cases hexited : o.exited = true
    · refine ⟨o, by simp [runLoop, ho, hexited], ?_⟩
      constructor
      · intro _; exact ⟨r, List.mem_cons_self _ _, hex.1 hexited⟩
      · intro _; exact hexited
    · obtain ⟨o2, ho2, hex2⟩ := ih o.shell (hc.trans htable) (by rw [hm]; exact hcap)
      refine ⟨{ o2 with out := o.out ++ o2.out, runs := o.runs ++ o2.runs },
        by simp [runLoop, ho, hexited, ho2], ?_⟩
      simp only [List.mem_cons, exists_eq_or_imp]
      rw [hex2]
      have hnot : ¬ ExitEvent r := fun hr => hexited (hex.2 hr)
      simp [hnot]

/-- Counterexample to C11: `Run` on a new shell whose prompt answers the first round with
`promptui.ErrEOF`, or with `promptui.ErrInterrupt`, ends the process in that round, and the
history shows that no command line was read, so no `exit` command was dispatched. -/
theorem loop_ends_on_eof_and_interrupt :
    (Run sampleHost Char.toLower NewShell [.eof]).map
        (fun o => (o.exited, o.shell.History)) = some (true, []) ∧
    (Run sampleHost Char.toLower NewShell [.interrupt]).map
        (fun o => (o.exited, o.shell.History)) = some (true, []) := by
  decide

/-- C11, amended.  The loop of `Run` in a shell with the command table of `setupCommands` and
a history capacity of at least 1.  Every round returns, whatever the prompt answers, and
leaves command table and capacity as they are, so that the next round starts under the same
conditions.  The round ends the process exactly when the answer is an exit event: a line
whose first word is `exit`, or one of the prompt errors `ErrInterrupt` and `ErrEOF`, on which
the loop calls `cmdExit` itself.  In particular a blank line leaves the shell as it is and the
loop running, an unknown command name leaves the loop running, and a command whose handler
returns an error leaves the loop running.  Over any sequence of answers the loop has ended
exactly when one of them was an exit event. -/
theorem loop_ends_only_on_exit_event (h : Host) (lowerRune : Char → Char) (s : Shell)
    (inputs : List PromptResult)
    (htable : s.Commands = (setupCommands NewShell).Commands) (hcap : 1 ≤ s.HistoryMaxSize) :
    (∀ r, ∃ o, loopBody h lowerRune s r = some o ∧ (o.exited = true ↔ ExitEvent r) ∧
      o.shell.Commands = s.Commands ∧ o.shell.HistoryMaxSize = s.HistoryMaxSize ∧
      (o.err ≠ none → o.exited = false)) ∧
    (∀ line, TrimSpace line = "" →
      ∃ o, loopBody h lowerRune s (.selected line) = some o ∧ o.exited = false ∧ o.shell = s) ∧
    (∀ line name args, Fields (TrimSpace line) = name :: args →
      mapIndex s.Commands name = none →
      ∃ o, loopBody h lowerRune s (.selected line) = some o ∧ o.exited = false) ∧
    (∃ o, runLoop h lowerRune s inputs = some o ∧
      (o.exited = true ↔ ∃ r ∈ inputs, ExitEvent r)) := by
  refine ⟨fun r => loopBody_round h lowerRune s r htable hcap, ?_, ?_,
    runLoop_exited_iff h lowerRune inputs s htable hcap⟩
  · intro line hblank
    exact ⟨{ shell := s, out := [s.Prompt] }, by simp [loopBody, hblank], rfl, rfl⟩
  · intro line name args hf hidx
    obtain ⟨o, ho, hex, _⟩ := loopBody_round h lowerRune s (.selected line) htable hcap
    refine ⟨o, ho, ?_⟩
    have hne : name ≠ "exit" := by
      rintro rfl
      rw [htable] at hidx
      have hsome : (mapIndex (setupCommands NewShell).Commands "exit").isSome = true := by
        decide
      rw [hidx] at hsome
      simp at hsome
    have hnot : ¬ ExitEvent (.selected line) := by
      simp [ExitEvent, hf, hne]
    cases hexited : o.exited with
    | false => rfl
    | true => exact absurd (hex.1 hexited) hnot

/-- Witness of C11, amended: in the sample shell a blank line, an unknown command, a command
that fails, a prompt error and a command that succeeds leave the loop running. -/
theorem loop_ends_only_on_exit_event_witness :
    sampleShell.Commands = (setupCommands NewShell).Commands ∧
    (1 : Int) ≤ sampleShell.HistoryMaxSize ∧
    (¬ ∃ r ∈ sampleInputs, ExitEvent r) ∧
    ∃ o, runLoop sampleHost Char.toLower sampleShell sampleInputs = some o ∧
      o.exited = false := by
  have hcap : (1 : Int) ≤ sampleShell.HistoryMaxSize := by decide
  have hnone : ¬ ∃ r ∈ sampleInputs, ExitEvent r := by decide
  obtain ⟨o, ho, hex⟩ := (loop_ends_only_on_exit_event sampleHost Char.toLower sampleShell
    sampleInputs rfl hcap).2.2.2
  refine ⟨rfl, hcap, hnone, o, ho, ?_⟩
  cases hexited : o.exited with
  | false => rfl
  | true => exact absurd (hex.1 hexited) hnone

end Luna
